import Mathlib

/-!
Verification development for the StandardErrorWrapper batch-fix script
(fix-standarderrorwrapper-python.py).

The program is a text-transformation script.  We embed its content-level
transformations over `List Char`:

* `ERROR_CODE_MAPPING` — the fixed legacy-code → canonical-code table.
* `add_errorcode_import` — the dependency fix-up (`str.replace` guarded by two
  substring-presence checks).
* `fix_standarderrorwrapper_calls` — the call-site rewrite.  The Python code
  uses `re.sub` with the pattern
  `throw\s+new\s+StandardErrorWrapper\(\s*[QUOTE](G1+)[QUOTE]\s*,\s*[QUOTE](G2*?)[QUOTE]\s*,\s*\x7b(G3*?)\x7d\s*\)`
  where QUOTE is any of the three quote characters and G1/G2 exclude all three
  quote characters, G3 excludes the closing brace.  For this particular
  pattern, matching at a fixed start position is deterministic: every greedy
  run (`\s*`, `\s+`, `[^...]+`) is followed by a character its class excludes,
  so only the maximal run can succeed, and every lazy run (`[^...]*?`) is
  bounded by the first character its class excludes, so only the minimal run
  can succeed.  `matchCall` below implements exactly that deterministic
  reading; `re.sub` semantics (leftmost match, resume after the match end)
  is implemented by `fixCallsFuel`.
* `fix_file_outcome` / `fix_file_trace` — the per-file pipeline (read, backup,
  transform, conditional write-back, classification).
* `runStats` — the main loop's tallying over per-file results.

Whitespace is modelled as the ASCII whitespace characters (the inputs are
source files; Python's `\s` and `str.strip` agree with this on ASCII text).
-/

namespace SEW

/-- ASCII whitespace, as matched by the regex class and removed by str.strip. -/
def pyWS (c : Char) : Bool :=
  c == ' ' || c == '\t' || c == '\n' || c == '\x0d' || c == '\x0b' || c == '\x0c'

/-- The three quote characters accepted by the pattern: apostrophe, double
quote, backtick. -/
def isQuote (c : Char) : Bool :=
  c == '\x27' || c == '\x22' || c == '\x60'

def notQuoteC (c : Char) : Bool := !(isQuote c)

def notBraceC (c : Char) : Bool := !(c == '\x7d')

/-- Boolean list-prefix test. -/
def lPre : List Char → List Char → Bool
  | [], _ => true
  | _ :: _, [] => false
  | a :: as, b :: bs => a == b && lPre as bs

/-- Python's substring test `needle in haystack` (for nonempty needles this is
"some suffix starts with the needle"). -/
def occursB (m : List Char) : List Char → Bool
  | [] => m.isEmpty
  | c :: cs => lPre m (c :: cs) || occursB m cs

/-- Consume a literal from the front of a list. -/
def dropLit : List Char → List Char → Option (List Char)
  | [], s => some s
  | _ :: _, [] => none
  | p :: ps, c :: cs => if p == c then dropLit ps cs else none

/-- Python str.strip(): drop leading and trailing whitespace. -/
def stripWS (s : List Char) : List Char :=
  ((s.dropWhile pyWS).reverse.dropWhile pyWS).reverse

/-- The deprecated marker searched for by the script: "StandardErrorWrapper". -/
def markerL : List Char :=
  ['S','t','a','n','d','a','r','d','E','r','r','o','r','W','r','a','p','p','e','r']

def throwL : List Char := ['t','h','r','o','w']

def newL : List Char := ['n','e','w']

/-- The literal "StandardErrorWrapper(" consumed after `throw new`. -/
def sewL : List Char := markerL ++ ['(']

/-- The error-code mapping table of the script (ERROR_CODE_MAPPING). -/
def ERROR_CODE_MAPPING : List (List Char × List Char) :=
  [ ("EVENTBUS_ERROR".toList, "VALIDATION_ERROR".toList)
  , ("UI_OPERATION_FAILED".toList, "OPERATION_ERROR".toList)
  , ("VALIDATION_FAILED".toList, "VALIDATION_ERROR".toList)
  , ("NETWORK_TIMEOUT".toList, "TIMEOUT_ERROR".toList)
  , ("STORAGE_FAILED".toList, "STORAGE_ERROR".toList)
  , ("CHROME_API_ERROR".toList, "CHROME_ERROR".toList)
  , ("DOM_MANIPULATION_ERROR".toList, "DOM_ERROR".toList)
  , ("FILE_OPERATION_ERROR".toList, "FILE_ERROR".toList)
  , ("PERMISSION_DENIED".toList, "PERMISSION_ERROR".toList)
  , ("PARSE_FAILED".toList, "PARSE_ERROR".toList)
  , ("CONNECTION_FAILED".toList, "CONNECTION_ERROR".toList)
  , ("CONFIG_INVALID".toList, "CONFIG_ERROR".toList)
  , ("RENDER_FAILED".toList, "RENDER_ERROR".toList)
  , ("PERFORMANCE_ISSUE".toList, "PERFORMANCE_ERROR".toList)
  , ("UNKNOWN_ERROR".toList, "UNKNOWN_ERROR".toList)
  , ("READMOO_API_ERROR".toList, "READMOO_ERROR".toList)
  , ("BOOK_PROCESSING_ERROR".toList, "BOOK_ERROR".toList)
  , ("INVALID_DATA_FORMAT".toList, "VALIDATION_ERROR".toList) ]

/-- The default sentinel canonical code. -/
def unknownL : List Char := "UNKNOWN_ERROR".toList

/-- Association-list lookup (Python dict lookup; the keys are distinct). -/
def lookupAssoc : List (List Char × List Char) → List Char → Option (List Char)
  | [], _ => none
  | (k, v) :: rest, key => if k == key then some v else lookupAssoc rest key

/-- ERROR_CODE_MAPPING.get(code, 'UNKNOWN_ERROR'). -/
def lookupCode (k : List Char) : List Char :=
  (lookupAssoc ERROR_CODE_MAPPING k).getD unknownL

/-- Replacement-template segments of the f-string in `replace_error`:
`const error = new Error('{message}')` then newline + six spaces +
`error.code = ErrorCodes.{mapped}` then newline + six spaces +
`error.details = \x7b {details} \x7d` then newline + six spaces +
`throw error`. -/
def rLit1 : List Char := "const error = new Error(\x27".toList

def rLit2 : List Char := "\x27)\n      error.code = ErrorCodes.".toList

def rLit3 : List Char := "\n      error.details = \x7b ".toList

def rLit4 : List Char := " \x7d\n      throw error".toList

/-- The `replace_error` callback: strip the three captured groups, map the
error code through the table with default UNKNOWN_ERROR, and build the
replacement block. -/
def replace_error (g1 g2 g3 : List Char) : List Char :=
  rLit1 ++ stripWS g2 ++ rLit2 ++ lookupCode (stripWS g1) ++
    rLit3 ++ stripWS g3 ++ rLit4

/-- One step of the matcher: skip whitespace, then require and consume a
comma. -/
def wsCommaStep (s : List Char) : Option (List Char) :=
  match s.dropWhile pyWS with
  | c :: t => if c == ',' then some t else none
  | [] => none

/-- Skip whitespace, then require and consume one of the three quote
characters (the pattern does not require the closing quote to match the
opening one). -/
def wsQuoteStep (s : List Char) : Option (List Char) :=
  match s.dropWhile pyWS with
  | c :: t => if isQuote c then some t else none
  | [] => none

/-- Skip whitespace, then require and consume an opening brace. -/
def wsBraceStep (s : List Char) : Option (List Char) :=
  match s.dropWhile pyWS with
  | c :: t => if c == '\x7b' then some t else none
  | [] => none

/-- Skip whitespace, then require and consume a closing parenthesis. -/
def wsParenStep (s : List Char) : Option (List Char) :=
  match s.dropWhile pyWS with
  | c :: t => if c == ')' then some t else none
  | [] => none

/-- Take the run of characters satisfying `p`, then require and consume one
more character (the delimiter that ended the run).  Returns the run and the
remainder after the delimiter. -/
def grabUntil (p : Char → Bool) (s : List Char) : Option (List Char × List Char) :=
  match s.dropWhile p with
  | [] => none
  | _ :: t => some (s.takeWhile p, t)

/-- Fail on an empty list (used for the `+` quantifiers of the pattern). -/
def guardNE (l : List Char) : Option Unit :=
  if l.isEmpty then none else some ()

instance : DecidableEq (List Char × List Char × List Char × List Char) :=
  fun a b => inferInstanceAs (Decidable (a = b))

/-- Pattern head: `throw`, mandatory whitespace, `new`, mandatory whitespace,
`StandardErrorWrapper(`. -/
def matchHead (s : List Char) : Option (List Char) := do
  let s1 ← dropLit throwL s
  let _ ← guardNE (s1.takeWhile pyWS)
  let s2 ← dropLit newL (s1.dropWhile pyWS)
  let _ ← guardNE (s2.takeWhile pyWS)
  dropLit sewL (s2.dropWhile pyWS)

/-- First argument: optional whitespace, quote, nonempty quote-free group,
closing quote, optional whitespace, comma, optional whitespace, quote.
Returns the group and the remainder after the second opening quote. -/
def matchArg1 (s3 : List Char) : Option (List Char × List Char) := do
  let s4 ← wsQuoteStep s3
  let g1p ← grabUntil notQuoteC s4
  let _ ← guardNE g1p.1
  let s6 ← wsCommaStep g1p.2
  let s7 ← wsQuoteStep s6
  some (g1p.1, s7)

/-- Second argument: possibly-empty quote-free group, closing quote, optional
whitespace, comma, optional whitespace, opening brace.  Returns the group and
the remainder after the brace. -/
def matchArg2 (s7 : List Char) : Option (List Char × List Char) := do
  let g2p ← grabUntil notQuoteC s7
  let s9 ← wsCommaStep g2p.2
  let s10 ← wsBraceStep s9
  some (g2p.1, s10)

/-- Third argument: brace-free details span, closing brace, optional
whitespace, closing parenthesis.  Returns the span and the remainder after
the parenthesis. -/
def matchArg3 (s10 : List Char) : Option (List Char × List Char) := do
  let g3p ← grabUntil notBraceC s10
  let rest ← wsParenStep g3p.2
  some (g3p.1, rest)

/-- Attempt to match the deprecated-call pattern at the start of `s`.
On success returns the three captured groups (error-code literal body,
message literal body, details body) and the remainder after the match. -/
def matchCall (s : List Char) : Option (List Char × List Char × List Char × List Char) := do
  let s3 ← matchHead s
  let p1 ← matchArg1 s3
  let p2 ← matchArg2 p1.2
  let p3 ← matchArg3 p2.2
  some (p1.1, p2.1, p3.1, p3.2)

/-- Fuel-indexed global-replace scan (`re.sub`): try the pattern at each
position from left to right; on a match, emit the replacement and resume
after the matched span.  The fuel bounds the recursion; `s.length` is always
enough fuel because every match consumes at least one character. -/
def fixCallsFuel : Nat → List Char → List Char
  | 0, s => s
  | _ + 1, [] => []
  | fuel + 1, c :: cs =>
    match matchCall (c :: cs) with
    | some (g1, g2, g3, rest) => replace_error g1 g2 g3 ++ fixCallsFuel fuel rest
    | none => c :: fixCallsFuel fuel cs

/-- The call-site rewrite `fix_standarderrorwrapper_calls`. -/
def fix_standarderrorwrapper_calls (s : List Char) : List Char :=
  fixCallsFuel s.length s

/-- Needle checked first by the dependency fix-up. -/
def stdNeedleL : List Char := "require(\x27src/core/errors/StandardError\x27)".toList

/-- Needle whose absence the dependency fix-up requires before inserting. -/
def ecNeedleL : List Char := "require(\x27src/core/errors/ErrorCodes\x27)".toList

/-- The searched-for const line of the dependency fix-up. -/
def constLineL : List Char :=
  "const \x7b StandardError \x7d = require(\x27src/core/errors/StandardError\x27)".toList

/-- The replacement text of the dependency fix-up.  The Python source writes
the separator as a backslash-n escape inside a plain (non-raw) double-quoted
string that already uses backslash-backslash, so the inserted text contains a
literal backslash followed by the letter n, not a newline. -/
def insertedL : List Char :=
  constLineL ++ ['\\', 'n'] ++
    "const \x7b ErrorCodes \x7d = require(\x27src/core/errors/ErrorCodes\x27)".toList

/-- Fuel-indexed replace-all (Python `str.replace`): left-to-right,
non-overlapping, the replacement text is not rescanned. -/
def replaceAllF (pat repl : List Char) : Nat → List Char → List Char
  | 0, s => s
  | _ + 1, [] => []
  | fuel + 1, c :: cs =>
    if lPre pat (c :: cs) then repl ++ replaceAllF pat repl fuel ((c :: cs).drop pat.length)
    else c :: replaceAllF pat repl fuel cs

def replaceAllStr (pat repl s : List Char) : List Char :=
  replaceAllF pat repl s.length s

/-- The dependency fix-up `add_errorcode_import`. -/
def add_errorcode_import (c : List Char) : List Char :=
  if occursB stdNeedleL c && !(occursB ecNeedleL c)
  then replaceAllStr constLineL insertedL c
  else c

/-- The complete per-file textual transformation, in the order applied by
`fix_file`: dependency fix-up, then call-site rewrite. -/
def applyFix (c : List Char) : List Char :=
  fix_standarderrorwrapper_calls (add_errorcode_import c)

/-- Per-file classification produced by `fix_file` on its non-exceptional
path. -/
inductive FixOutcome where
  | completeFix
  | incompleteFix
  | skippedFix
deriving DecidableEq

/-- fix_file's content-level behaviour on a successfully read file: transform;
if the result differs, write it back and classify by re-scanning for the
marker; otherwise leave the file alone and classify as skipped.  The second
component is the resulting on-disk content. -/
def fix_file_outcome (content : List Char) : FixOutcome × List Char :=
  let c1 := applyFix content
  if c1 = content then (FixOutcome.skippedFix, content)
  else if occursB markerL c1 then (FixOutcome.incompleteFix, c1)
  else (FixOutcome.completeFix, c1)

/-- File-system events performed by `fix_file` on a successfully read file,
in program order: read the content, copy the file into the backup directory,
then (only if the transformation changed the content) write the new content
back. -/
inductive FsEvent where
  | readF : List Char → FsEvent
  | backupF : List Char → FsEvent
  | writeF : List Char → FsEvent
deriving DecidableEq

def fix_file_trace (content : List Char) : List FsEvent :=
  [FsEvent.readF content, FsEvent.backupF content] ++
    (if applyFix content = content then [] else [FsEvent.writeF (applyFix content)])

/-- Per-file result record consumed by the main loop's tally. -/
inductive FixResult where
  | completeR
  | incompleteR
  | skippedR
  | failedR : List Char → FixResult
deriving DecidableEq

/-- One file job: either a per-file I/O error carrying its message (missing
file, read failure, backup failure, write failure — all caught by the
try/except surrounding `fix_file`'s body) or the successfully read content. -/
def processOne (job : Except (List Char) (List Char)) : FixResult :=
  match job with
  | Except.error msg => FixResult.failedR msg
  | Except.ok content =>
    match (fix_file_outcome content).1 with
    | FixOutcome.completeFix => FixResult.completeR
    | FixOutcome.incompleteFix => FixResult.incompleteR
    | FixOutcome.skippedFix => FixResult.skippedR

/-- The main loop's aggregate counters and failure detail list. -/
structure RunStats where
  completeCount : Nat
  incompleteCount : Nat
  skippedCount : Nat
  failedCount : Nat
  errors : List (List Char)
deriving DecidableEq

def initStats : RunStats := ⟨0, 0, 0, 0, []⟩

/-- One iteration of the tally in `main`. -/
def stepStats (st : RunStats) (r : FixResult) : RunStats :=
  match r with
  | FixResult.failedR m =>
      { st with failedCount := st.failedCount + 1, errors := st.errors ++ [m] }
  | FixResult.skippedR => { st with skippedCount := st.skippedCount + 1 }
  | FixResult.completeR => { st with completeCount := st.completeCount + 1 }
  | FixResult.incompleteR => { st with incompleteCount := st.incompleteCount + 1 }

/-- The main loop: process every file job in order and tally the results. -/
def runStats (jobs : List (Except (List Char) (List Char))) : RunStats :=
  (jobs.map processOne).foldl stepStats initStats

def isErrJob (j : Except (List Char) (List Char)) : Bool :=
  match j with
  | Except.error _ => true
  | Except.ok _ => false

def errMsgOf (j : Except (List Char) (List Char)) : Option (List Char) :=
  match j with
  | Except.error m => some m
  | Except.ok _ => none

/-- A well-formed deprecated call in the exact textual shape
`throw new StandardErrorWrapper(<q>code<q>, <q>msg<q>, \x7bdet\x7d)`. -/
def mkCall (qc qm : Char) (code msg det : List Char) : List Char :=
  't' :: 'h' :: 'r' :: 'o' :: 'w' :: ' ' :: 'n' :: 'e' :: 'w' :: ' ' ::
  'S' :: 't' :: 'a' :: 'n' :: 'd' :: 'a' :: 'r' :: 'd' :: 'E' :: 'r' :: 'r' ::
  'o' :: 'r' :: 'W' :: 'r' :: 'a' :: 'p' :: 'p' :: 'e' :: 'r' :: '(' ::
  qc :: (code ++ qc :: ',' :: ' ' :: qm ::
    (msg ++ qm :: ',' :: ' ' :: '\x7b' :: (det ++ '\x7d' :: ')' :: [])))

/-- The spec's description of the replacement block: a fixed-shape block that
constructs a generic error carrying the message text, attaches the canonical
code as a `code` attribute referencing the error-code table, attaches a
`details` attribute reproducing the details expression verbatim, and throws
the constructed object, each continuation line indented by exactly six
spaces. -/
def specBlock (msg code det : List Char) : List Char :=
  "const error = new Error(\x27".toList ++ msg ++ "\x27)".toList ++
  '\n' :: ' ' :: ' ' :: ' ' :: ' ' :: ' ' :: ' ' ::
    ("error.code = ErrorCodes.".toList ++ code) ++
  '\n' :: ' ' :: ' ' :: ' ' :: ' ' :: ' ' :: ' ' ::
    ("error.details = \x7b ".toList ++ det ++ " \x7d".toList) ++
  '\n' :: ' ' :: ' ' :: ' ' :: ' ' :: ' ' :: ' ' :: "throw error".toList

/-! Basic lemmas about `lPre` and `occursB`. -/

theorem lPre_nil_left (s : List Char) : lPre [] s = true := by
  cases s <;> rfl

theorem lPre_self_append (p t : List Char) : lPre p (p ++ t) = true := by
  induction p with
  | nil => exact lPre_nil_left t
  | cons a as ih => simp [lPre, ih]

theorem lPre_refl (p : List Char) : lPre p p = true := by
  simpa using lPre_self_append p []

theorem lPre_decomp {p s : List Char} (h : lPre p s = true) :
    s = p ++ s.drop p.length := by
  induction p generalizing s with
  | nil => simp
  | cons a as ih =>
    cases s with
    | nil => simp [lPre] at h
    | cons b bs =>
      simp only [lPre, Bool.and_eq_true, beq_iff_eq] at h
      obtain ⟨rfl, h2⟩ := h
      simpa [List.drop_succ_cons] using ih h2

theorem lPre_append_right {m u : List Char} (v : List Char) (h : lPre m u = true) :
    lPre m (u ++ v) = true := by
  induction m generalizing u with
  | nil => exact lPre_nil_left _
  | cons a as ih =>
    cases u with
    | nil => simp [lPre] at h
    | cons b bs =>
      simp only [lPre, Bool.and_eq_true] at h
      simpa [lPre, h.1] using ih h.2

theorem lPre_trunc {m u v : List Char} (hlen : m.length ≤ u.length)
    (h : lPre m (u ++ v) = true) : lPre m u = true := by
  induction m generalizing u with
  | nil => exact lPre_nil_left _
  | cons a as ih =>
    cases u with
    | nil => simp at hlen
    | cons b bs =>
      simp only [List.cons_append, lPre, Bool.and_eq_true] at h
      simp only [List.length_cons, Nat.add_le_add_iff_right] at hlen
      simpa [lPre, h.1] using ih hlen h.2

theorem lPre_split {m u v : List Char} (h : lPre m (u ++ v) = true) :
    lPre m u = true ∨ ∃ m2, m = u ++ m2 ∧ lPre m2 v = true := by
  induction m generalizing u with
  | nil => exact Or.inl (lPre_nil_left _)
  | cons a as ih =>
    cases u with
    | nil => exact Or.inr ⟨a :: as, rfl, by simpa using h⟩
    | cons b bs =>
      simp only [List.cons_append, lPre, Bool.and_eq_true, beq_iff_eq] at h
      obtain ⟨rfl, h2⟩ := h
      rcases ih h2 with h3 | ⟨m2, rfl, h4⟩
      · exact Or.inl (by simp [lPre, h3])
      · exact Or.inr ⟨m2, rfl, h4⟩

theorem lPre_subset {m s : List Char} (h : lPre m s = true) : ∀ c ∈ m, c ∈ s := by
  induction m generalizing s with
  | nil => intro c hc; simp at hc
  | cons a as ih =>
    cases s with
    | nil => simp [lPre] at h
    | cons b bs =>
      simp only [lPre, Bool.and_eq_true, beq_iff_eq] at h
      obtain ⟨rfl, h2⟩ := h
      intro c hc
      rcases List.mem_cons.mp hc with rfl | hc
      · exact List.mem_cons_self _ _
      · exact List.mem_cons_of_mem _ (ih h2 c hc)

theorem occursB_of_lPre {m s : List Char} (h : lPre m s = true) :
    occursB m s = true := by
  cases s with
  | nil =>
    cases m with
    | nil => rfl
    | cons a as => simp [lPre] at h
  | cons c cs => simp [occursB, h]

theorem occursB_self_append (m t : List Char) : occursB m (m ++ t) = true :=
  occursB_of_lPre (lPre_self_append m t)

theorem occursB_append_right {m t : List Char} (s : List Char)
    (h : occursB m t = true) : occursB m (s ++ t) = true := by
  induction s with
  | nil => simpa using h
  | cons c cs ih => simp [occursB, ih]

theorem occursB_append_left {m s : List Char} (t : List Char)
    (h : occursB m s = true) : occursB m (s ++ t) = true := by
  induction s with
  | nil =>
    have : m = [] := by simpa [occursB, List.isEmpty_iff] using h
    subst this
    exact occursB_of_lPre (lPre_nil_left _)
  | cons c cs ih =>
    simp only [occursB, Bool.or_eq_true] at h
    rcases h with h | h
    · have := lPre_append_right (u := c :: cs) t h
      simpa [occursB] using Or.inl this
    · simpa [occursB] using Or.inr (ih h)

theorem occursB_cons_false {m : List Char} {c : Char} {cs : List Char}
    (h : occursB m (c :: cs) = false) :
    lPre m (c :: cs) = false ∧ occursB m cs = false := by
  simpa [occursB] using h

theorem occursB_first_skip {d : Char} {m' u v : List Char} (hd : d ∉ u)
    (h : occursB (d :: m') (u ++ v) = true) : occursB (d :: m') v = true := by
  induction u with
  | nil => simpa using h
  | cons x xs ih =>
    simp only [List.cons_append, occursB, Bool.or_eq_true] at h
    rcases h with h | h
    · exfalso
      simp only [lPre, Bool.and_eq_true, beq_iff_eq] at h
      exact hd (h.1 ▸ List.mem_cons_self _ _)
    · exact ih (fun hm => hd (List.mem_cons_of_mem _ hm)) h

theorem occursB_no_straddle {m a b' : List Char} {c : Char} (hc : c ∉ m)
    (h : occursB m (a ++ c :: b') = true) :
    occursB m a = true ∨ occursB m (c :: b') = true := by
  induction a with
  | nil => exact Or.inr (by simpa using h)
  | cons x xs ih =>
    simp only [List.cons_append, occursB, Bool.or_eq_true] at h
    rcases h with h | h
    · have h' : lPre m ((x :: xs) ++ (c :: b')) = true := by simpa using h
      rcases lPre_split h' with h1 | ⟨m2, hm2, h2⟩
      · exact Or.inl (occursB_of_lPre h1)
      · cases m2 with
        | nil =>
          subst hm2
          exact Or.inl (occursB_of_lPre (by simpa using lPre_refl (x :: xs)))
        | cons e es =>
          exfalso
          simp only [lPre, Bool.and_eq_true, beq_iff_eq] at h2
          apply hc
          rw [hm2, h2.1]
          exact List.mem_append_right _ (List.mem_cons_self _ _)
    · rcases ih h with h1 | h1
      · exact Or.inl (by simp [occursB, h1])
      · exact Or.inr h1

theorem occursB_overlap {m a t b : List Char} (hlen : m.length ≤ t.length + 1)
    (h : occursB m (a ++ (t ++ b)) = true) :
    occursB m (a ++ t) = true ∨ occursB m (t ++ b) = true := by
  induction a with
  | nil => exact Or.inr (by simpa using h)
  | cons x xs ih =>
    simp only [List.cons_append, occursB, Bool.or_eq_true] at h
    rcases h with h | h
    · left
      have h' : lPre m (((x :: xs) ++ t) ++ b) = true := by
        simpa [List.append_assoc] using h
      have hl : m.length ≤ ((x :: xs) ++ t).length := by
        simp only [List.length_append, List.length_cons]
        omega
      exact occursB_of_lPre (lPre_trunc hl h')
    · rcases ih h with h1 | h1
      · exact Or.inl (by simp [occursB, h1])
      · exact Or.inr h1

theorem occursB_subset_chars {m s : List Char} (h : occursB m s = true) :
    ∀ c ∈ m, c ∈ s := by
  induction s with
  | nil =>
    have : m = [] := by simpa [occursB, List.isEmpty_iff] using h
    subst this
    intro c hc
    simp at hc
  | cons d ds ih =>
    simp only [occursB, Bool.or_eq_true] at h
    rcases h with h | h
    · exact lPre_subset h
    · intro c hc
      exact List.mem_cons_of_mem _ (ih h c hc)

theorem stripWS_decomp (s : List Char) :
    s = s.takeWhile pyWS ++ (stripWS s ++ ((s.dropWhile pyWS).reverse.takeWhile pyWS).reverse) := by
  conv_lhs => rw [← List.takeWhile_append_dropWhile (p := pyWS) (l := s)]
  congr 1
  have h1 : s.dropWhile pyWS = ((s.dropWhile pyWS).reverse).reverse := by simp
  conv_lhs => rw [h1]
  conv_lhs =>
    rw [← List.takeWhile_append_dropWhile (p := pyWS) (l := (s.dropWhile pyWS).reverse)]
  rw [List.reverse_append]
  rfl

theorem occursB_stripWS {m s : List Char} (h : occursB m s = false) :
    occursB m (stripWS s) = false := by
  by_contra hne
  have ht : occursB m (stripWS s) = true := by
    cases hx : occursB m (stripWS s)
    · exact absurd hx hne
    · rfl
  have h2 := occursB_append_left ((s.dropWhile pyWS).reverse.takeWhile pyWS).reverse ht
  have h3 := occursB_append_right (m := m) (s.takeWhile pyWS) h2
  rw [← stripWS_decomp s] at h3
  rw [h3] at h
  exact Bool.true_eq_false.mp h

/-! Lemmas about the fuel-indexed replace-all. -/

theorem replaceAllF_fuel {pat repl : List Char} (hpat : pat ≠ []) :
    ∀ f1 f2 s, s.length ≤ f1 → s.length ≤ f2 →
      replaceAllF pat repl f1 s = replaceAllF pat repl f2 s := by
  intro f1
  induction f1 with
  | zero =>
    intro f2 s h1 _
    have hs : s = [] := List.eq_nil_of_length_eq_zero (Nat.le_zero.mp h1)
    subst hs
    cases f2 <;> rfl
  | succ n ih =>
    intro f2 s h1 h2
    cases s with
    | nil => cases f2 <;> rfl
    | cons c cs =>
      cases f2 with
      | zero => simp at h2
      | succ m =>
        simp only [replaceAllF]
        have hpl : 1 ≤ pat.length := List.length_pos.mpr hpat
        by_cases hp : lPre pat (c :: cs) = true
        · rw [hp]
          simp only [if_true]
          congr 1
          apply ih
          · simp only [List.length_drop, List.length_cons]
            simp only [List.length_cons] at h1
            omega
          · simp only [List.length_drop, List.length_cons]
            simp only [List.length_cons] at h2
            omega
        · have hp' : lPre pat (c :: cs) = false := by
            cases hx : lPre pat (c :: cs)
            · rfl
            · exact absurd hx hp
          rw [hp']
          simp only [Bool.false_eq_true, if_false]
          congr 1
          apply ih
          · simpa [Nat.lt_succ_iff] using Nat.lt_of_lt_of_le (Nat.lt_succ_self _) h1
          · simpa [Nat.lt_succ_iff] using Nat.lt_of_lt_of_le (Nat.lt_succ_self _) h2

theorem replaceAllStr_cons_pos {pat : List Char} (hpat : pat ≠ []) (repl : List Char)
    {c : Char} {cs : List Char} (hp : lPre pat (c :: cs) = true) :
    replaceAllStr pat repl (c :: cs) =
      repl ++ replaceAllStr pat repl ((c :: cs).drop pat.length) := by
  unfold replaceAllStr
  simp only [List.length_cons, replaceAllF, hp, if_true]
  congr 1
  apply replaceAllF_fuel hpat
  · have hpl : 1 ≤ pat.length := List.length_pos.mpr hpat
    simp only [List.length_drop, List.length_cons]
    omega
  · exact le_refl _

theorem replaceAllStr_cons_neg {pat repl : List Char} {c : Char} {cs : List Char}
    (hp : lPre pat (c :: cs) = false) :
    replaceAllStr pat repl (c :: cs) = c :: replaceAllStr pat repl cs := by
  have hpat : pat ≠ [] := by
    intro he
    subst he
    rw [lPre_nil_left] at hp
    exact Bool.true_eq_false.mp hp
  unfold replaceAllStr
  simp only [List.length_cons, replaceAllF, hp, Bool.false_eq_true, if_false]

theorem replaceAllStr_id {pat repl s : List Char} (h : occursB pat s = false) :
    replaceAllStr pat repl s = s := by
  induction s with
  | nil => rfl
  | cons c cs ih =>
    obtain ⟨h1, h2⟩ := occursB_cons_false h
    rw [replaceAllStr_cons_neg h1, ih h2]

theorem replaceAllStr_decomp {pat s : List Char} (repl : List Char) (hpat : pat ≠ [])
    (h : occursB pat s = true) :
    ∃ l r, replaceAllStr pat repl s = l ++ (repl ++ r) := by
  induction s with
  | nil =>
    rw [show occursB pat [] = pat.isEmpty from rfl] at h
    rw [List.isEmpty_iff] at h
    exact absurd h hpat
  | cons c cs ih =>
    by_cases hp : lPre pat (c :: cs) = true
    · exact ⟨[], replaceAllStr pat repl ((c :: cs).drop pat.length),
        by rw [replaceAllStr_cons_pos hpat repl hp]; simp⟩
    · have hp' : lPre pat (c :: cs) = false := by
        cases hx : lPre pat (c :: cs)
        · rfl
        · exact absurd hx hp
      have h2 : occursB pat cs = true := by
        have := h
        simp only [occursB, hp', Bool.false_or] at this
        exact this
      obtain ⟨l, r, hlr⟩ := ih h2
      exact ⟨c :: l, r, by rw [replaceAllStr_cons_neg hp', hlr]; rfl⟩

/-! The dependency fix-up: identity conditions and the insertion lemma. -/

theorem add_import_id_of_nostd {x : List Char} (h : occursB stdNeedleL x = false) :
    add_errorcode_import x = x := by
  unfold add_errorcode_import
  simp [h]

theorem add_import_id_of_ec {x : List Char} (h : occursB ecNeedleL x = true) :
    add_errorcode_import x = x := by
  unfold add_errorcode_import
  simp [h]

/-- The inserted text ends with the ErrorCodes require needle. -/
theorem insertedL_split :
    insertedL = (constLineL ++ '\\' :: 'n' :: "const \x7b ErrorCodes \x7d = ".toList)
      ++ ecNeedleL := by decide

theorem add_import_inserts {c : List Char}
    (hstd : occursB stdNeedleL c = true) (hec : occursB ecNeedleL c = false)
    (hocc : occursB constLineL c = true) :
    occursB ecNeedleL (add_errorcode_import c) = true := by
  have hval : add_errorcode_import c = replaceAllStr constLineL insertedL c := by
    unfold add_errorcode_import
    simp [hstd, hec]
  obtain ⟨l, r, hlr⟩ := replaceAllStr_decomp insertedL (by decide) hocc
  rw [hval, hlr, insertedL_split]
  have : l ++ ((constLineL ++ '\\' :: 'n' :: "const \x7b ErrorCodes \x7d = ".toList)
      ++ ecNeedleL ++ r)
      = (l ++ (constLineL ++ '\\' :: 'n' :: "const \x7b ErrorCodes \x7d = ".toList))
        ++ (ecNeedleL ++ r) := by
    simp [List.append_assoc]
  rw [this]
  exact occursB_append_right _ (occursB_self_append _ _)

/-! Inversion and length lemmas for the matcher. -/

theorem dropWhile_length_le (p : Char → Bool) (s : List Char) :
    (s.dropWhile p).length ≤ s.length := by
  induction s with
  | nil => simp
  | cons c cs ih =>
    by_cases hc : p c = true
    · simp only [List.dropWhile_cons, hc, if_true]
      exact Nat.le_succ_of_le ih
    · simp only [List.dropWhile_cons, hc]
      simp

theorem dropLit_decomp {p s t : List Char} (h : dropLit p s = some t) :
    s = p ++ t := by
  induction p generalizing s with
  | nil =>
    simp only [dropLit, Option.some.injEq] at h
    simp [h]
  | cons a as ih =>
    cases s with
    | nil => simp [dropLit] at h
    | cons c cs =>
      simp only [dropLit] at h
      by_cases hac : a = c
      · subst hac
        simp only [beq_self_eq_true, if_true] at h
        simpa using ih h
      · rw [if_neg (by simpa using hac)] at h
        cases h

theorem dropLit_self (p t : List Char) : dropLit p (p ++ t) = some t := by
  induction p with
  | nil => rfl
  | cons a as ih => simp [dropLit, ih]

theorem wsCommaStep_len {s t : List Char} (h : wsCommaStep s = some t) :
    t.length < s.length := by
  unfold wsCommaStep at h
  cases hd : s.dropWhile pyWS with
  | nil => rw [hd] at h; cases h
  | cons c t' =>
    rw [hd] at h
    by_cases hc : c = ','
    · simp only [hc, beq_self_eq_true, if_true, Option.some.injEq] at h
      subst h
      have hle := dropWhile_length_le pyWS s
      rw [hd] at hle
      simp only [List.length_cons] at hle
      omega
    · simp [hc] at h

theorem wsQuoteStep_len {s t : List Char} (h : wsQuoteStep s = some t) :
    t.length < s.length := by
  unfold wsQuoteStep at h
  cases hd : s.dropWhile pyWS with
  | nil => rw [hd] at h; cases h
  | cons c t' =>
    rw [hd] at h
    by_cases hc : isQuote c = true
    · simp only [hc, if_true, Option.some.injEq] at h
      subst h
      have hle := dropWhile_length_le pyWS s
      rw [hd] at hle
      simp only [List.length_cons] at hle
      omega
    · simp [hc] at h

theorem wsBraceStep_len {s t : List Char} (h : wsBraceStep s = some t) :
    t.length < s.length := by
  unfold wsBraceStep at h
  cases hd : s.dropWhile pyWS with
  | nil => rw [hd] at h; cases h
  | cons c t' =>
    rw [hd] at h
    by_cases hc : c = '\x7b'
    · simp only [hc, beq_self_eq_true, if_true, Option.some.injEq] at h
      subst h
      have hle := dropWhile_length_le pyWS s
      rw [hd] at hle
      simp only [List.length_cons] at hle
      omega
    · simp [hc] at h

theorem wsParenStep_len {s t : List Char} (h : wsParenStep s = some t) :
    t.length < s.length := by
  unfold wsParenStep at h
  cases hd : s.dropWhile pyWS with
  | nil => rw [hd] at h; cases h
  | cons c t' =>
    rw [hd] at h
    by_cases hc : c = ')'
    · simp only [hc, beq_self_eq_true, if_true, Option.some.injEq] at h
      subst h
      have hle := dropWhile_length_le pyWS s
      rw [hd] at hle
      simp only [List.length_cons] at hle
      omega
    · simp [hc] at h

theorem grabUntil_len {p : Char → Bool} {s g t : List Char}
    (h : grabUntil p s = some (g, t)) : t.length < s.length := by
  unfold grabUntil at h
  cases hd : s.dropWhile p with
  | nil => rw [hd] at h; cases h
  | cons d t' =>
    rw [hd] at h
    simp only [Option.some.injEq, Prod.mk.injEq] at h
    obtain ⟨-, rfl⟩ := h
    have hle := dropWhile_length_le p s
    rw [hd] at hle
    simp only [List.length_cons] at hle
    omega

theorem matchHead_marker {s s3 : List Char} (h : matchHead s = some s3) :
    occursB markerL s = true := by
  unfold matchHead at h
  simp only [bind, Option.bind_eq_some] at h
  obtain ⟨s1, h1, u1, hg1, s2, h3, u2, hg2, h5⟩ := h
  have e1 : s = throwL ++ s1 := dropLit_decomp h1
  have e2 : s1 = s1.takeWhile pyWS ++ s1.dropWhile pyWS :=
    (List.takeWhile_append_dropWhile pyWS s1).symm
  have e3 : s1.dropWhile pyWS = newL ++ s2 := dropLit_decomp h3
  have e4 : s2 = s2.takeWhile pyWS ++ s2.dropWhile pyWS :=
    (List.takeWhile_append_dropWhile pyWS s2).symm
  have e5 : s2.dropWhile pyWS = sewL ++ s3 := dropLit_decomp h5
  rw [e1, e2, e3, e4, e5]
  have hsew : sewL ++ s3 = markerL ++ ('(' :: s3) := by
    simp [sewL, List.append_assoc]
  rw [hsew]
  exact occursB_append_right _ (occursB_append_right _ (occursB_append_right _
    (occursB_append_right _ (occursB_self_append _ _))))

theorem matchHead_len {s s3 : List Char} (h : matchHead s = some s3) :
    s3.length < s.length := by
  unfold matchHead at h
  simp only [bind, Option.bind_eq_some] at h
  obtain ⟨s1, h1, u1, hg1, s2, h3, u2, hg2, h5⟩ := h
  have e1 : s = throwL ++ s1 := dropLit_decomp h1
  have e3 : s1.dropWhile pyWS = newL ++ s2 := dropLit_decomp h3
  have e5 : s2.dropWhile pyWS = sewL ++ s3 := dropLit_decomp h5
  have l1 : s1.length < s.length := by
    rw [e1]
    simp only [List.length_append]
    have h5l : throwL.length = 5 := rfl
    omega
  have l2 : s2.length ≤ s1.length := by
    have := dropWhile_length_le pyWS s1
    rw [e3] at this
    simp only [List.length_append] at this
    omega
  have l3 : s3.length ≤ s2.length := by
    have := dropWhile_length_le pyWS s2
    rw [e5] at this
    simp only [List.length_append] at this
    omega
  omega

theorem matchArg1_len {s g p : List Char} (h : matchArg1 s = some (g, p)) :
    p.length < s.length := by
  unfold matchArg1 at h
  simp only [bind, Option.bind_eq_some] at h
  obtain ⟨s4, h4, g1p, hg1, u, hgu, s6, h6, s7, h7, hfin⟩ := h
  simp only [Option.some.injEq, Prod.mk.injEq] at hfin
  obtain ⟨-, rfl⟩ := hfin
  have l4 := wsQuoteStep_len h4
  obtain ⟨ga, ta⟩ := g1p
  have l5 := grabUntil_len hg1
  have l6 := wsCommaStep_len h6
  have l7 := wsQuoteStep_len h7
  simp only at l5 l6 ⊢
  omega

theorem matchArg2_len {s g p : List Char} (h : matchArg2 s = some (g, p)) :
    p.length < s.length := by
  unfold matchArg2 at h
  simp only [bind, Option.bind_eq_some] at h
  obtain ⟨g2p, hg2, s9, h9, s10, h10, hfin⟩ := h
  simp only [Option.some.injEq, Prod.mk.injEq] at hfin
  obtain ⟨-, rfl⟩ := hfin
  obtain ⟨ga, ta⟩ := g2p
  have l1 := grabUntil_len hg2
  have l2 := wsCommaStep_len h9
  have l3 := wsBraceStep_len h10
  simp only at l1 l2 ⊢
  omega

theorem matchArg3_len {s g p : List Char} (h : matchArg3 s = some (g, p)) :
    p.length < s.length := by
  unfold matchArg3 at h
  simp only [bind, Option.bind_eq_some] at h
  obtain ⟨g3p, hg3, rest, hrest, hfin⟩ := h
  simp only [Option.some.injEq, Prod.mk.injEq] at hfin
  obtain ⟨-, rfl⟩ := hfin
  obtain ⟨ga, ta⟩ := g3p
  have l1 := grabUntil_len hg3
  have l2 := wsParenStep_len hrest
  simp only at l1 l2 ⊢
  omega

theorem matchCall_len {s g1 g2 g3 rest : List Char}
    (h : matchCall s = some (g1, g2, g3, rest)) : rest.length < s.length := by
  unfold matchCall at h
  simp only [bind, Option.bind_eq_some] at h
  obtain ⟨s3, hh, p1, hp1, p2, hp2, p3, hp3, hfin⟩ := h
  simp only [Option.some.injEq, Prod.mk.injEq] at hfin
  obtain ⟨-, -, -, rfl⟩ := hfin
  obtain ⟨a1, b1⟩ := p1
  obtain ⟨a2, b2⟩ := p2
  obtain ⟨a3, b3⟩ := p3
  have l0 := matchHead_len hh
  have l1 := matchArg1_len hp1
  have l2 := matchArg2_len hp2
  have l3 := matchArg3_len hp3
  simp only at l1 l2 l3 ⊢
  omega

theorem matchCall_marker {s : List Char}
    {q : List Char × List Char × List Char × List Char}
    (h : matchCall s = some q) : occursB markerL s = true := by
  unfold matchCall at h
  simp only [bind, Option.bind_eq_some] at h
  obtain ⟨s3, hh, -⟩ := h
  exact matchHead_marker hh

theorem matchCall_nil : matchCall [] = none := by decide

/-! Fuel invariance and the scan interface for the call-site rewrite. -/

theorem fixCallsFuel_fuel :
    ∀ f1 f2 s, s.length ≤ f1 → s.length ≤ f2 →
      fixCallsFuel f1 s = fixCallsFuel f2 s := by
  intro f1
  induction f1 with
  | zero =>
    intro f2 s h1 _
    have hs : s = [] := List.eq_nil_of_length_eq_zero (Nat.le_zero.mp h1)
    subst hs
    cases f2 <;> rfl
  | succ n ih =>
    intro f2 s h1 h2
    cases s with
    | nil => cases f2 <;> rfl
    | cons c cs =>
      cases f2 with
      | zero => simp at h2
      | succ m =>
        cases hm : matchCall (c :: cs) with
        | none =>
          simp only [fixCallsFuel, hm]
          simp only [List.length_cons] at h1 h2
          rw [ih m cs (by omega) (by omega)]
        | some q =>
          obtain ⟨g1, g2, g3, rest⟩ := q
          have hlen := matchCall_len hm
          simp only [fixCallsFuel, hm]
          simp only [List.length_cons] at h1 h2
          simp only [List.length_cons] at hlen
          rw [ih m rest (by omega) (by omega)]

theorem fixCalls_nil : fix_standarderrorwrapper_calls [] = [] := rfl

theorem fixCalls_match {s g1 g2 g3 rest : List Char}
    (h : matchCall s = some (g1, g2, g3, rest)) :
    fix_standarderrorwrapper_calls s =
      replace_error g1 g2 g3 ++ fix_standarderrorwrapper_calls rest := by
  cases s with
  | nil => rw [matchCall_nil] at h; cases h
  | cons c cs =>
    unfold fix_standarderrorwrapper_calls
    simp only [List.length_cons, fixCallsFuel, h]
    congr 1
    have hlen := matchCall_len h
    simp only [List.length_cons] at hlen
    exact fixCallsFuel_fuel cs.length rest.length rest (by omega) (le_refl _)

theorem fixCalls_nomatch {c : Char} {cs : List Char}
    (h : matchCall (c :: cs) = none) :
    fix_standarderrorwrapper_calls (c :: cs) =
      c :: fix_standarderrorwrapper_calls cs := by
  unfold fix_standarderrorwrapper_calls
  simp only [List.length_cons, fixCallsFuel, h]

theorem fixCalls_id_aux :
    ∀ n (s : List Char), s.length ≤ n → occursB markerL s = false →
      fix_standarderrorwrapper_calls s = s := by
  intro n
  induction n with
  | zero =>
    intro s h1 _
    have hs : s = [] := List.eq_nil_of_length_eq_zero (Nat.le_zero.mp h1)
    subst hs
    rfl
  | succ k ih =>
    intro s hlen h
    cases s with
    | nil => rfl
    | cons c cs =>
      cases hm : matchCall (c :: cs) with
      | some q =>
        rw [matchCall_marker hm] at h
        exact absurd h (by simp)
      | none =>
        rw [fixCalls_nomatch hm]
        obtain ⟨-, h2⟩ := occursB_cons_false h
        simp only [List.length_cons] at hlen
        rw [ih cs (by omega) h2]

/-- A content string containing no occurrence of the deprecated marker is left
unchanged by the call-site rewrite. -/
theorem fixCalls_id_of_no_marker {s : List Char} (h : occursB markerL s = false) :
    fix_standarderrorwrapper_calls s = s :=
  fixCalls_id_aux s.length s (le_refl _) h

/-- Scanning a region in which the pattern matches at no position reproduces
that region verbatim. -/
theorem fixCalls_scan {pre rest : List Char}
    (h : ∀ i, i < pre.length → matchCall (List.drop i (pre ++ rest)) = none) :
    fix_standarderrorwrapper_calls (pre ++ rest) =
      pre ++ fix_standarderrorwrapper_calls rest := by
  induction pre with
  | nil => simp
  | cons c pre' ih =>
    have h0 : matchCall (c :: (pre' ++ rest)) = none := by
      have := h 0 (by simp)
      simpa using this
    rw [List.cons_append, fixCalls_nomatch h0]
    simp only [List.cons_append]
    congr 1
    apply ih
    intro i hi
    have := h (i + 1) (by simp only [List.length_cons]; omega)
    simpa [List.drop_succ_cons] using this

/-! Lookup-table lemmas. -/

theorem lookupAssoc_of_mem {l : List (List Char × List Char)} {k v : List Char}
    (hnd : (l.map Prod.fst).Nodup) (h : (k, v) ∈ l) : lookupAssoc l k = some v := by
  induction l with
  | nil => simp at h
  | cons p rest ih =>
    obtain ⟨k', v'⟩ := p
    simp only [List.map_cons, List.nodup_cons] at hnd
    rcases List.mem_cons.mp h with heq | hmem
    · obtain ⟨rfl, rfl⟩ := Prod.mk.injEq .. ▸ (by exact Prod.mk.inj heq.symm : k' = k ∧ v' = v)
      simp [lookupAssoc]
    · have hk : k ∈ rest.map Prod.fst := by
        exact List.mem_map.mpr ⟨(k, v), hmem, rfl⟩
      have hne : ¬(k' == k) = true := by
        intro hb
        exact hnd.1 (beq_iff_eq.mp hb ▸ hk)
      simp only [lookupAssoc, hne, Bool.false_eq_true, if_false]
      exact ih hnd.2 hmem

theorem lookupAssoc_not_mem {l : List (List Char × List Char)} {k : List Char}
    (h : k ∉ l.map Prod.fst) : lookupAssoc l k = none := by
  induction l with
  | nil => rfl
  | cons p rest ih =>
    obtain ⟨k', v'⟩ := p
    simp only [List.map_cons, List.mem_cons, not_or] at h
    have hne : ¬(k' == k) = true := by
      intro hb
      exact h.1 (beq_iff_eq.mp hb).symm
    simp only [lookupAssoc, hne, Bool.false_eq_true, if_false]
    exact ih h.2

theorem lookupAssoc_val_mem :
    ∀ {l : List (List Char × List Char)} {k v : List Char},
      lookupAssoc l k = some v → (k, v) ∈ l := by
  intro l
  induction l with
  | nil => intro k v h; cases h
  | cons p rest ih =>
    intro k v h
    obtain ⟨k', v'⟩ := p
    simp only [lookupAssoc] at h
    by_cases hk : (k' == k) = true
    · rw [if_pos hk] at h
      obtain rfl := Option.some.inj h
      exact List.mem_cons.mpr (Or.inl (by rw [beq_iff_eq.mp hk]))
    · rw [if_neg hk] at h
      exact List.mem_cons_of_mem _ (ih h)

theorem mapping_keys_nodup : (ERROR_CODE_MAPPING.map Prod.fst).Nodup := by decide

theorem lookupCode_of_mem {k v : List Char} (h : (k, v) ∈ ERROR_CODE_MAPPING) :
    lookupCode k = v := by
  unfold lookupCode
  rw [lookupAssoc_of_mem mapping_keys_nodup h]
  rfl

theorem lookupCode_of_not_mem {k : List Char}
    (h : k ∉ ERROR_CODE_MAPPING.map Prod.fst) : lookupCode k = unknownL := by
  unfold lookupCode
  rw [lookupAssoc_not_mem h]
  rfl

/-- No canonical code the table can produce (including the default sentinel)
contains the deprecated marker as a substring: every value is shorter than
the marker. -/
theorem lookupCode_no_marker (k : List Char) :
    occursB markerL (lookupCode k) = false := by
  unfold lookupCode
  cases hl : lookupAssoc ERROR_CODE_MAPPING k with
  | none =>
    simp only [Option.getD_none]
    decide
  | some v =>
    have hmem := lookupAssoc_val_mem hl
    have hall : ∀ p ∈ ERROR_CODE_MAPPING, occursB markerL p.2 = false := by decide
    simpa using hall _ hmem

theorem mapping_key_strip : ∀ p ∈ ERROR_CODE_MAPPING, stripWS p.1 = p.1 := by decide

/-! The replacement block has the spec's fixed shape. -/

theorem specBlock_eq (m k d : List Char) :
    specBlock m k d = rLit1 ++ m ++ rLit2 ++ k ++ rLit3 ++ d ++ rLit4 := by
  unfold specBlock
  simp [rLit1, rLit2, rLit3, rLit4, List.append_assoc]

theorem replace_error_eq_specBlock (g1 g2 g3 : List Char) :
    replace_error g1 g2 g3 =
      specBlock (stripWS g2) (lookupCode (stripWS g1)) (stripWS g3) := by
  unfold replace_error
  rw [specBlock_eq]

/-! Forward computation of the matcher on a well-formed call. -/

theorem takeWhile_append_stop {p : Char → Bool} {l : List Char} {d : Char}
    (hl : ∀ c ∈ l, p c = true) (hd : p d = false) (t : List Char) :
    (l ++ d :: t).takeWhile p = l := by
  induction l with
  | nil => simp [List.takeWhile_cons, hd]
  | cons a as ih =>
    have ha : p a = true := hl a (List.mem_cons_self _ _)
    simp only [List.cons_append, List.takeWhile_cons, ha, if_true]
    rw [ih (fun c hc => hl c (List.mem_cons_of_mem _ hc))]

theorem dropWhile_append_stop {p : Char → Bool} {l : List Char} {d : Char}
    (hl : ∀ c ∈ l, p c = true) (hd : p d = false) (t : List Char) :
    (l ++ d :: t).dropWhile p = d :: t := by
  induction l with
  | nil => simp [List.dropWhile_cons, hd]
  | cons a as ih =>
    have ha : p a = true := hl a (List.mem_cons_self _ _)
    simp only [List.cons_append, List.dropWhile_cons, ha, if_true]
    exact ih (fun c hc => hl c (List.mem_cons_of_mem _ hc))

theorem grabUntil_append {p : Char → Bool} {l : List Char} {d : Char}
    (hl : ∀ c ∈ l, p c = true) (hd : p d = false) (t : List Char) :
    grabUntil p (l ++ d :: t) = some (l, t) := by
  unfold grabUntil
  rw [dropWhile_append_stop hl hd, takeWhile_append_stop hl hd]

theorem quote_not_ws {c : Char} (h : isQuote c = true) : pyWS c = false := by
  simp only [isQuote, Bool.or_eq_true, beq_iff_eq] at h
  rcases h with (rfl | rfl) | rfl <;> rfl

theorem wsQuoteStep_now {q : Char} (hq : isQuote q = true) (t : List Char) :
    wsQuoteStep (q :: t) = some t := by
  unfold wsQuoteStep
  rw [List.dropWhile_cons, quote_not_ws hq]
  simp [hq]

theorem wsQuoteStep_sp {q : Char} (hq : isQuote q = true) (t : List Char) :
    wsQuoteStep (' ' :: q :: t) = some t := by
  unfold wsQuoteStep
  have hsp : pyWS ' ' = true := rfl
  rw [List.dropWhile_cons, hsp]
  simp only [if_true]
  rw [List.dropWhile_cons, quote_not_ws hq]
  simp [hq]

theorem wsCommaStep_now (t : List Char) : wsCommaStep (',' :: t) = some t := by
  unfold wsCommaStep
  have h1 : pyWS ',' = false := rfl
  rw [List.dropWhile_cons, h1]
  simp

theorem wsBraceStep_sp (t : List Char) : wsBraceStep (' ' :: '\x7b' :: t) = some t := by
  unfold wsBraceStep
  have hsp : pyWS ' ' = true := rfl
  have h1 : pyWS '\x7b' = false := rfl
  rw [List.dropWhile_cons, hsp]
  simp only [if_true]
  rw [List.dropWhile_cons, h1]
  simp

theorem wsParenStep_now (t : List Char) : wsParenStep (')' :: t) = some t := by
  unfold wsParenStep
  have h1 : pyWS ')' = false := rfl
  rw [List.dropWhile_cons, h1]
  simp

theorem guardNE_of_ne {l : List Char} (h : l ≠ []) : guardNE l = some () := by
  cases l with
  | nil => exact absurd rfl h
  | cons c cs => rfl

theorem matchHead_concrete (R : List Char) :
    matchHead ('t' :: 'h' :: 'r' :: 'o' :: 'w' :: ' ' :: 'n' :: 'e' :: 'w' :: ' ' ::
      'S' :: 't' :: 'a' :: 'n' :: 'd' :: 'a' :: 'r' :: 'd' :: 'E' :: 'r' :: 'r' ::
      'o' :: 'r' :: 'W' :: 'r' :: 'a' :: 'p' :: 'p' :: 'e' :: 'r' :: '(' :: R) =
      some R := rfl

theorem matchArg1_mk {qc qm : Char} {code : List Char} (T : List Char)
    (hqc : isQuote qc = true) (hqm : isQuote qm = true)
    (hcode_ne : code ≠ [])
    (hcode : ∀ c ∈ code, isQuote c = false) :
    matchArg1 (qc :: (code ++ qc :: ',' :: ' ' :: qm :: T)) = some (code, T) := by
  have hl : ∀ c ∈ code, notQuoteC c = true := by
    intro c hc
    simp [notQuoteC, hcode c hc]
  have hd : notQuoteC qc = false := by simp [notQuoteC, hqc]
  unfold matchArg1
  rw [wsQuoteStep_now hqc]
  simp only [Option.bind_eq_bind, Option.some_bind]
  rw [grabUntil_append hl hd]
  simp only [Option.bind_eq_bind, Option.some_bind]
  rw [guardNE_of_ne hcode_ne]
  simp only [Option.bind_eq_bind, Option.some_bind]
  rw [wsCommaStep_now]
  simp only [Option.bind_eq_bind, Option.some_bind]
  rw [wsQuoteStep_sp hqm]
  simp only [Option.bind_eq_bind, Option.some_bind]

theorem matchArg2_mk {qm : Char} {msg : List Char} (T : List Char)
    (hqm : isQuote qm = true)
    (hmsg : ∀ c ∈ msg, isQuote c = false) :
    matchArg2 (msg ++ qm :: ',' :: ' ' :: '\x7b' :: T) = some (msg, T) := by
  have hl : ∀ c ∈ msg, notQuoteC c = true := by
    intro c hc
    simp [notQuoteC, hmsg c hc]
  have hd : notQuoteC qm = false := by simp [notQuoteC, hqm]
  unfold matchArg2
  rw [grabUntil_append hl hd]
  simp only [Option.bind_eq_bind, Option.some_bind]
  rw [wsCommaStep_now]
  simp only [Option.bind_eq_bind, Option.some_bind]
  rw [wsBraceStep_sp]
  simp only [Option.bind_eq_bind, Option.some_bind]

theorem matchArg3_mk {det : List Char} (T : List Char)
    (hdet : ∀ c ∈ det, (c == '\x7d') = false) :
    matchArg3 (det ++ '\x7d' :: ')' :: T) = some (det, T) := by
  have hl : ∀ c ∈ det, notBraceC c = true := by
    intro c hc
    simp only [notBraceC, hdet c hc]
    rfl
  have hd : notBraceC '\x7d' = false := by decide
  unfold matchArg3
  rw [grabUntil_append hl hd]
  simp only [Option.bind_eq_bind, Option.some_bind]
  rw [wsParenStep_now]
  simp only [Option.bind_eq_bind, Option.some_bind]

/-- The matcher accepts a well-formed call (quote characters for the two
literal delimiters, a nonempty quote-free error-code body, a quote-free
message body, a brace-free details body) and captures exactly its three
groups, leaving exactly the text after the closing parenthesis. -/
theorem matchCall_mkCall {qc qm : Char} {code msg det : List Char} (post : List Char)
    (hqc : isQuote qc = true) (hqm : isQuote qm = true)
    (hcode_ne : code ≠ [])
    (hcode : ∀ c ∈ code, isQuote c = false)
    (hmsg : ∀ c ∈ msg, isQuote c = false)
    (hdet : ∀ c ∈ det, (c == '\x7d') = false) :
    matchCall (mkCall qc qm code msg det ++ post) = some (code, msg, det, post) := by
  have hshape : mkCall qc qm code msg det ++ post =
      't' :: 'h' :: 'r' :: 'o' :: 'w' :: ' ' :: 'n' :: 'e' :: 'w' :: ' ' ::
      'S' :: 't' :: 'a' :: 'n' :: 'd' :: 'a' :: 'r' :: 'd' :: 'E' :: 'r' :: 'r' ::
      'o' :: 'r' :: 'W' :: 'r' :: 'a' :: 'p' :: 'p' :: 'e' :: 'r' :: '(' ::
      qc :: (code ++ qc :: ',' :: ' ' :: qm ::
        (msg ++ qm :: ',' :: ' ' :: '\x7b' :: (det ++ '\x7d' :: ')' :: post))) := by
    simp [mkCall, List.append_assoc]
  rw [hshape]
  unfold matchCall
  rw [matchHead_concrete]
  simp only [Option.bind_eq_bind, Option.some_bind]
  rw [matchArg1_mk _ hqc hqm hcode_ne hcode]
  simp only [Option.bind_eq_bind, Option.some_bind]
  rw [matchArg2_mk _ hqm hmsg]
  simp only [Option.bind_eq_bind, Option.some_bind]
  rw [matchArg3_mk _ hdet]
  simp only [Option.bind_eq_bind, Option.some_bind]

/-! Marker-freedom of the replacement block and of rewritten content. -/

theorem occursB_join_false {m a b' : List Char} {c : Char} (hc : c ∉ m)
    (ha : occursB m a = false) (hb : occursB m (c :: b') = false) :
    occursB m (a ++ c :: b') = false := by
  cases hx : occursB m (a ++ c :: b') with
  | false => rfl
  | true =>
    rcases occursB_no_straddle hc hx with h | h
    · rw [ha] at h
      exact absurd h (by simp)
    · rw [hb] at h
      exact absurd h (by simp)

theorem occursB_lit_skip_false {d : Char} {m' u v : List Char} (hd : d ∉ u)
    (hv : occursB (d :: m') v = false) : occursB (d :: m') (u ++ v) = false := by
  cases hx : occursB (d :: m') (u ++ v) with
  | false => rfl
  | true =>
    rw [occursB_first_skip hd hx] at hv
    exact absurd hv (by simp)

theorem occursB_append_free {m a b : List Char}
    (hhead : ∀ c, b.head? = some c → c ∉ m)
    (ha : occursB m a = false) (hb : occursB m b = false) :
    occursB m (a ++ b) = false := by
  cases b with
  | nil => simpa using ha
  | cons c bt => exact occursB_join_false (hhead c rfl) ha hb

/-- The replacement block built from a marker-free message, a table code, and
a marker-free details body contains no occurrence of the deprecated marker:
its fixed segments and every possible code token are marker-free, and no
occurrence can straddle a segment boundary. -/
theorem specBlock_no_marker {m d : List Char} (k : List Char)
    (hm : occursB markerL m = false) (hd : occursB markerL d = false) :
    occursB markerL (specBlock m (lookupCode k) d) = false := by
  have e2 : rLit2 = '\x27' :: ")\n      error.code = ErrorCodes.".toList := by decide
  have e3 : rLit3 = '\n' :: "      error.details = \x7b ".toList := by decide
  have e4 : rLit4 = ' ' :: "\x7d\n      throw error".toList := by decide
  rw [specBlock_eq, e2, e3, e4]
  have A1 : occursB markerL (' ' :: "\x7d\n      throw error".toList) = false := by decide
  have A2 : occursB markerL (d ++ ' ' :: "\x7d\n      throw error".toList) = false :=
    occursB_join_false (by decide) hd A1
  have A3 : occursB markerL (('\n' :: "      error.details = \x7b ".toList) ++
      (d ++ ' ' :: "\x7d\n      throw error".toList)) = false :=
    occursB_lit_skip_false (by decide) A2
  have A4 : occursB markerL (lookupCode k ++
      (('\n' :: "      error.details = \x7b ".toList) ++
        (d ++ ' ' :: "\x7d\n      throw error".toList))) = false :=
    occursB_join_false (by decide) (lookupCode_no_marker k) A3
  have A5 : occursB markerL (('\x27' :: ")\n      error.code = ErrorCodes.".toList) ++
      (lookupCode k ++
        (('\n' :: "      error.details = \x7b ".toList) ++
          (d ++ ' ' :: "\x7d\n      throw error".toList)))) = false :=
    occursB_lit_skip_false (by decide) A4
  have A6 : occursB markerL (m ++
      (('\x27' :: ")\n      error.code = ErrorCodes.".toList) ++
        (lookupCode k ++
          (('\n' :: "      error.details = \x7b ".toList) ++
            (d ++ ' ' :: "\x7d\n      throw error".toList))))) = false :=
    occursB_join_false (by decide) hm A5
  have A7 : occursB markerL (rLit1 ++ (m ++
      (('\x27' :: ")\n      error.code = ErrorCodes.".toList) ++
        (lookupCode k ++
          (('\n' :: "      error.details = \x7b ".toList) ++
            (d ++ ' ' :: "\x7d\n      throw error".toList)))))) = false :=
    occursB_lit_skip_false (by decide) A6
  simpa [List.append_assoc] using A7

theorem mapping_key_ok :
    ∀ p ∈ ERROR_CODE_MAPPING, p.1 ≠ [] ∧ ∀ c ∈ p.1, isQuote c = false := by decide

/-- Claim C1 (amended): for content consisting of a single well-formed
deprecated call — with quote-free code and message literal bodies (free of
all three quote characters, not merely of the matching one) and a brace-free
details span — whose error-code body is a key of the ErrorCodeMap, placed
between surrounding text that matches the pattern at no position, is free of
the deprecated marker, and is reproduced by the scan, the call-site rewrite
replaces exactly the call with the single replacement block, the produced
content contains zero occurrences of the deprecated marker, and the block's
code attribute is the mapped canonical code. -/
theorem c1_single_call_rewrite {qc qm : Char} {code v msg det pre post : List Char}
    (hqc : isQuote qc = true) (hqm : isQuote qm = true)
    (hkey : (code, v) ∈ ERROR_CODE_MAPPING)
    (hmsgq : ∀ c ∈ msg, isQuote c = false)
    (hdetb : ∀ c ∈ det, (c == '\x7d') = false)
    (hmm : occursB markerL msg = false)
    (hmd : occursB markerL det = false)
    (hpre : occursB markerL pre = false)
    (hpost : occursB markerL post = false)
    (hscan : ∀ i, i < pre.length →
      matchCall (List.drop i (pre ++ (mkCall qc qm code msg det ++ post))) = none)
    (hpostid : fix_standarderrorwrapper_calls post = post) :
    fix_standarderrorwrapper_calls (pre ++ (mkCall qc qm code msg det ++ post)) =
      pre ++ (specBlock (stripWS msg) v (stripWS det) ++ post)
    ∧ occursB markerL (pre ++ (specBlock (stripWS msg) v (stripWS det) ++ post)) = false
    ∧ lookupCode (stripWS code) = v := by
  have hkprops := mapping_key_ok _ hkey
  have hstripc : stripWS code = code := mapping_key_strip _ hkey
  have hlook : lookupCode (stripWS code) = v := by
    rw [hstripc]
    exact lookupCode_of_mem hkey
  have hmatch := matchCall_mkCall post hqc hqm hkprops.1 hkprops.2 hmsgq hdetb
  have hmain : fix_standarderrorwrapper_calls (pre ++ (mkCall qc qm code msg det ++ post)) =
      pre ++ (specBlock (stripWS msg) v (stripWS det) ++ post) := by
    rw [fixCalls_scan hscan, fixCalls_match hmatch, hpostid,
      replace_error_eq_specBlock, hlook]
  refine ⟨hmain, ?_, hlook⟩
  have hmsF : occursB markerL (stripWS msg) = false := occursB_stripWS hmm
  have hdtF : occursB markerL (stripWS det) = false := occursB_stripWS hmd
  have hBfree : occursB markerL (specBlock (stripWS msg) v (stripWS det)) = false := by
    rw [← hlook]
    exact specBlock_no_marker _ hmsF hdtF
  have hBP : occursB markerL (specBlock (stripWS msg) v (stripWS det) ++ post) = false := by
    cases hx : occursB markerL (specBlock (stripWS msg) v (stripWS det) ++ post) with
    | false => rfl
    | true =>
      exfalso
      have hre : specBlock (stripWS msg) v (stripWS det) ++ post =
          (rLit1 ++ stripWS msg ++ rLit2 ++ v ++ rLit3 ++ stripWS det) ++
            (rLit4 ++ post) := by
        simp [specBlock_eq, List.append_assoc]
      rw [hre] at hx
      rcases occursB_overlap (by decide) hx with h | h
      · have hblk : (rLit1 ++ stripWS msg ++ rLit2 ++ v ++ rLit3 ++ stripWS det) ++ rLit4 =
            specBlock (stripWS msg) v (stripWS det) := by
          simp [specBlock_eq, List.append_assoc]
        rw [hblk] at h
        exact absurd h (by simp [hBfree])
      · have h2 := occursB_first_skip (u := rLit4) (by decide) h
        exact absurd (show occursB markerL post = true from h2) (by simp [hpost])
  exact occursB_append_free
    (by
      intro c hc
      have hh : (specBlock (stripWS msg) v (stripWS det) ++ post).head? = some 'c' := by
        rw [specBlock_eq]
        have e1 : rLit1 = 'c' :: "onst error = new Error(\x27".toList := by decide
        rw [e1]
        rfl
      rw [hh] at hc
      obtain rfl := Option.some.inj hc
      decide)
    hpre hBP

/-- Claim C1 (witness instance): the spec's NETWORK_TIMEOUT example embedded
between marker-free context lines. -/
theorem c1_single_call_rewrite_witness :
    fix_standarderrorwrapper_calls ("x = 1;\n".toList ++
        (mkCall '\x27' '\x27' "NETWORK_TIMEOUT".toList "timed out".toList
          " retry: true ".toList ++ ";\n".toList)) =
      "x = 1;\n".toList ++
        (specBlock (stripWS "timed out".toList) "TIMEOUT_ERROR".toList
          (stripWS " retry: true ".toList) ++ ";\n".toList)
    ∧ occursB markerL ("x = 1;\n".toList ++
        (specBlock (stripWS "timed out".toList) "TIMEOUT_ERROR".toList
          (stripWS " retry: true ".toList) ++ ";\n".toList)) = false
    ∧ lookupCode (stripWS "NETWORK_TIMEOUT".toList) = "TIMEOUT_ERROR".toList :=
  c1_single_call_rewrite (by decide) (by decide) (by decide) (by decide) (by decide)
    (by decide) (by decide) (by decide) (by decide) (by decide) (by decide)

/-- Claim C1 (counterexample to the claim as stated): the message literal
`it"s` is single-quoted and contains no embedded matching-quote character,
the code NETWORK_TIMEOUT is a key of the table, and the call is the content's
only deprecated call — yet the pattern's character classes exclude all three
quote characters, so nothing matches, the rewrite is the identity, and the
produced content still contains the deprecated marker. -/
theorem c1_counterexample :
    fix_standarderrorwrapper_calls
        ("throw new StandardErrorWrapper(\x27NETWORK_TIMEOUT\x27, \x27it\x22s\x27, \x7b a: 1 \x7d)".toList) =
      "throw new StandardErrorWrapper(\x27NETWORK_TIMEOUT\x27, \x27it\x22s\x27, \x7b a: 1 \x7d)".toList
    ∧ occursB markerL
        ("throw new StandardErrorWrapper(\x27NETWORK_TIMEOUT\x27, \x27it\x22s\x27, \x7b a: 1 \x7d)".toList) = true := by
  constructor
  · decide
  · decide

/-- Claim C2: every matched call is replaced by the fixed-shape block that
constructs a generic error carrying the trimmed message text, attaches the
error-code-table reference of the mapped code as the code attribute, attaches
a details attribute whose brace-enclosed body reproduces the trimmed details
span verbatim, and throws the constructed object, each continuation line
behind a newline and exactly six spaces regardless of the original call's
indentation; in particular the NETWORK_TIMEOUT example yields exactly the
expected block with message `timed out`, code TIMEOUT_ERROR and details body
`retry: true`. -/
theorem c2_replacement_shape :
    (∀ s g1 g2 g3 rest, matchCall s = some (g1, g2, g3, rest) →
      fix_standarderrorwrapper_calls s =
        specBlock (stripWS g2) (lookupCode (stripWS g1)) (stripWS g3) ++
          fix_standarderrorwrapper_calls rest)
    ∧ fix_standarderrorwrapper_calls
        ("throw new StandardErrorWrapper(\x27NETWORK_TIMEOUT\x27, \x27timed out\x27, \x7b retry: true \x7d)".toList) =
      "const error = new Error(\x27timed out\x27)\n      error.code = ErrorCodes.TIMEOUT_ERROR\n      error.details = \x7b retry: true \x7d\n      throw error".toList := by
  constructor
  · intro s g1 g2 g3 rest h
    rw [fixCalls_match h, replace_error_eq_specBlock]
  · decide

/-- Claim C2 (witness instance): a matched call with backtick and
double-quote delimiters is rewritten to the fixed-shape block. -/
theorem c2_replacement_shape_witness :
    fix_standarderrorwrapper_calls
        ("throw new StandardErrorWrapper(\x60STORAGE_FAILED\x60, \x22disk\x22, \x7b id: 7 \x7d)x".toList) =
      specBlock (stripWS "disk".toList) (lookupCode (stripWS "STORAGE_FAILED".toList))
        (stripWS " id: 7 ".toList) ++
        fix_standarderrorwrapper_calls ("x".toList) :=
  c2_replacement_shape.1 _ "STORAGE_FAILED".toList "disk".toList " id: 7 ".toList
    "x".toList (by decide)

/-- Claim C3: for every matched call, the error-code literal is trimmed of
whitespace and looked up in the ErrorCodeMap; the rewritten content carries
the table's canonical code in the block's code attribute when the trimmed
literal is a key, and the default sentinel UNKNOWN_ERROR when it is absent. -/
theorem c3_code_lookup :
    ∀ s g1 g2 g3 rest, matchCall s = some (g1, g2, g3, rest) →
      (∀ v, (stripWS g1, v) ∈ ERROR_CODE_MAPPING →
        ∃ l r, fix_standarderrorwrapper_calls s =
          l ++ ("error.code = ErrorCodes.".toList ++ v) ++ r)
      ∧ (stripWS g1 ∉ ERROR_CODE_MAPPING.map Prod.fst →
        ∃ l r, fix_standarderrorwrapper_calls s =
          l ++ ("error.code = ErrorCodes.".toList ++ "UNKNOWN_ERROR".toList) ++ r) := by
  intro s g1 g2 g3 rest h
  have hfix := fixCalls_match h
  have hsplit : rLit2 = "\x27)\n      ".toList ++ "error.code = ErrorCodes.".toList := by
    decide
  constructor
  · intro v hv
    refine ⟨rLit1 ++ stripWS g2 ++ "\x27)\n      ".toList,
      rLit3 ++ stripWS g3 ++ rLit4 ++ fix_standarderrorwrapper_calls rest, ?_⟩
    rw [hfix]
    unfold replace_error
    rw [lookupCode_of_mem hv, hsplit]
    simp [List.append_assoc]
  · intro hv
    refine ⟨rLit1 ++ stripWS g2 ++ "\x27)\n      ".toList,
      rLit3 ++ stripWS g3 ++ rLit4 ++ fix_standarderrorwrapper_calls rest, ?_⟩
    rw [hfix]
    unfold replace_error
    rw [lookupCode_of_not_mem hv, hsplit]
    have hunk : unknownL = "UNKNOWN_ERROR".toList := rfl
    rw [hunk]
    simp [List.append_assoc]

/-- Claim C3 (witness instances): a mapped code (NETWORK_TIMEOUT) produces
its canonical code, and an unmapped code (MADE_UP_CODE) produces the default
sentinel. -/
theorem c3_code_lookup_witness :
    (∃ l r, fix_standarderrorwrapper_calls
        ("throw new StandardErrorWrapper(\x27NETWORK_TIMEOUT\x27, \x27m\x27, \x7bd\x7d)".toList) =
      l ++ ("error.code = ErrorCodes.".toList ++ "TIMEOUT_ERROR".toList) ++ r)
    ∧ (∃ l r, fix_standarderrorwrapper_calls
        ("throw new StandardErrorWrapper(\x27MADE_UP_CODE\x27, \x27oops\x27, \x7b a: 1 \x7d)".toList) =
      l ++ ("error.code = ErrorCodes.".toList ++ "UNKNOWN_ERROR".toList) ++ r) :=
  ⟨(c3_code_lookup _ "NETWORK_TIMEOUT".toList "m".toList "d".toList []
      (by decide)).1 "TIMEOUT_ERROR".toList (by decide),
   (c3_code_lookup _ "MADE_UP_CODE".toList "oops".toList " a: 1 ".toList []
      (by decide)).2 (by decide)⟩

/-- Claim C6: a single pass of the call-site rewrite is a global replace —
content holding two independent well-formed deprecated calls has both
replaced, each by its own correctly mapped replacement block, with the
surrounding regions reproduced verbatim. -/
theorem c6_global_replace {qc1 qm1 qc2 qm2 : Char}
    {code1 v1 msg1 det1 code2 v2 msg2 det2 pre mid post : List Char}
    (hq1 : isQuote qc1 = true) (hq2 : isQuote qm1 = true)
    (hq3 : isQuote qc2 = true) (hq4 : isQuote qm2 = true)
    (hkey1 : (code1, v1) ∈ ERROR_CODE_MAPPING)
    (hkey2 : (code2, v2) ∈ ERROR_CODE_MAPPING)
    (hmsg1 : ∀ c ∈ msg1, isQuote c = false)
    (hdet1 : ∀ c ∈ det1, (c == '\x7d') = false)
    (hmsg2 : ∀ c ∈ msg2, isQuote c = false)
    (hdet2 : ∀ c ∈ det2, (c == '\x7d') = false)
    (hscan1 : ∀ i, i < pre.length → matchCall (List.drop i
      (pre ++ (mkCall qc1 qm1 code1 msg1 det1 ++
        (mid ++ (mkCall qc2 qm2 code2 msg2 det2 ++ post))))) = none)
    (hscan2 : ∀ i, i < mid.length → matchCall (List.drop i
      (mid ++ (mkCall qc2 qm2 code2 msg2 det2 ++ post))) = none)
    (hpostid : fix_standarderrorwrapper_calls post = post) :
    fix_standarderrorwrapper_calls
        (pre ++ (mkCall qc1 qm1 code1 msg1 det1 ++
          (mid ++ (mkCall qc2 qm2 code2 msg2 det2 ++ post)))) =
      pre ++ (specBlock (stripWS msg1) v1 (stripWS det1) ++
        (mid ++ (specBlock (stripWS msg2) v2 (stripWS det2) ++ post)))
    ∧ lookupCode (stripWS code1) = v1 ∧ lookupCode (stripWS code2) = v2 := by
  have hk1 := mapping_key_ok _ hkey1
  have hk2 := mapping_key_ok _ hkey2
  have hl1 : lookupCode (stripWS code1) = v1 := by
    rw [mapping_key_strip _ hkey1]
    exact lookupCode_of_mem hkey1
  have hl2 : lookupCode (stripWS code2) = v2 := by
    rw [mapping_key_strip _ hkey2]
    exact lookupCode_of_mem hkey2
  refine ⟨?_, hl1, hl2⟩
  rw [fixCalls_scan hscan1,
    fixCalls_match (matchCall_mkCall _ hq1 hq2 hk1.1 hk1.2 hmsg1 hdet1),
    fixCalls_scan hscan2,
    fixCalls_match (matchCall_mkCall _ hq3 hq4 hk2.1 hk2.2 hmsg2 hdet2),
    hpostid, replace_error_eq_specBlock, replace_error_eq_specBlock, hl1, hl2]

/-- Claim C6 (witness instance): two calls with different quoting and codes,
both rewritten in one pass. -/
theorem c6_global_replace_witness :
    fix_standarderrorwrapper_calls
        ("a;\n".toList ++ (mkCall '\x27' '\x27' "NETWORK_TIMEOUT".toList "t".toList
          " x ".toList ++ (";\n".toList ++ (mkCall '\x22' '\x60'
            "VALIDATION_FAILED".toList "v".toList " y ".toList ++ "\n".toList)))) =
      "a;\n".toList ++ (specBlock (stripWS "t".toList) "TIMEOUT_ERROR".toList
        (stripWS " x ".toList) ++ (";\n".toList ++ (specBlock (stripWS "v".toList)
          "VALIDATION_ERROR".toList (stripWS " y ".toList) ++ "\n".toList)))
    ∧ lookupCode (stripWS "NETWORK_TIMEOUT".toList) = "TIMEOUT_ERROR".toList
    ∧ lookupCode (stripWS "VALIDATION_FAILED".toList) = "VALIDATION_ERROR".toList :=
  c6_global_replace (by decide) (by decide) (by decide) (by decide) (by decide)
    (by decide) (by decide) (by decide) (by decide) (by decide) (by decide)
    (by decide) (by decide)

/-- Claim C5: the dependency fix-up is idempotent — applying it twice to any
content yields exactly what applying it once yields.  Either the trigger
condition fails (identity), or the replace is a no-op (the guarding needle
occurs without the full const line), or the insertion plants the ErrorCodes
reference, whose presence disables the second application. -/
theorem c5_add_import_idempotent (c : List Char) :
    add_errorcode_import (add_errorcode_import c) = add_errorcode_import c := by
  cases hstd : occursB stdNeedleL c with
  | false =>
    have hid : add_errorcode_import c = c := add_import_id_of_nostd hstd
    rw [hid, hid]
  | true =>
    cases hec : occursB ecNeedleL c with
    | true =>
      have hid : add_errorcode_import c = c := add_import_id_of_ec hec
      rw [hid, hid]
    | false =>
      have hval : add_errorcode_import c = replaceAllStr constLineL insertedL c := by
        unfold add_errorcode_import
        simp [hstd, hec]
      cases hocc : occursB constLineL c with
      | false =>
        have hcc : add_errorcode_import c = c :=
          hval.trans (replaceAllStr_id hocc)
        rw [hcc, hcc]
      | true =>
        exact add_import_id_of_ec (add_import_inserts hstd hec hocc)

/-- Claim C4 (amended): a file whose content contains no occurrence of the
deprecated marker and no occurrence of the base error-construction reference
is left byte-identical by per-file processing and classified as skipped. -/
theorem c4_skip_untouched {c : List Char}
    (hm : occursB markerL c = false)
    (hstd : occursB stdNeedleL c = false) :
    fix_file_outcome c = (FixOutcome.skippedFix, c) := by
  have h1 : add_errorcode_import c = c := add_import_id_of_nostd hstd
  have h2 : applyFix c = c := by
    unfold applyFix
    rw [h1]
    exact fixCalls_id_of_no_marker hm
  unfold fix_file_outcome
  simp [h2]

/-- Claim C4 (witness instance): an ordinary marker-free line is skipped
unchanged. -/
theorem c4_skip_untouched_witness :
    fix_file_outcome ("const x = 1;\n".toList) =
      (FixOutcome.skippedFix, "const x = 1;\n".toList) :=
  c4_skip_untouched (by decide) (by decide)

set_option maxRecDepth 100000 in
/-- Claim C4 (counterexample to the claim as stated): the const line that
requires StandardError contains no occurrence of the deprecated marker
`StandardErrorWrapper`, yet per-file processing rewrites it (the dependency
fix-up inserts the ErrorCodes reference) and classifies it as a complete
fix, not as skipped. -/
theorem c4_counterexample :
    occursB markerL constLineL = false
    ∧ (fix_file_outcome constLineL).1 = FixOutcome.completeFix
    ∧ (fix_file_outcome constLineL).2 ≠ constLineL := by
  refine ⟨by decide, by decide, by decide⟩

/-- Claim C7: on the non-exceptional path, whenever per-file processing
writes back mutated content, the event trace is exactly read, then backup —
carrying the pre-mutation content — then the write: the backup precedes the
write and equals the file's pre-mutation content. -/
theorem c7_backup_before_write {c w : List Char}
    (h : FsEvent.writeF w ∈ fix_file_trace c) :
    fix_file_trace c = [FsEvent.readF c, FsEvent.backupF c, FsEvent.writeF w]
    ∧ w = applyFix c := by
  by_cases hch : applyFix c = c
  · exfalso
    unfold fix_file_trace at h
    rw [if_pos hch] at h
    simp at h
  · have hw : w = applyFix c := by
      unfold fix_file_trace at h
      rw [if_neg hch] at h
      simp at h
      exact h
    subst hw
    refine ⟨?_, rfl⟩
    unfold fix_file_trace
    rw [if_neg hch]
    rfl

/-- Claim C7 (witness instance): a content that the rewrite mutates has the
trace read, backup of the original, write of the transformed content. -/
theorem c7_backup_before_write_witness :
    fix_file_trace
        ("throw new StandardErrorWrapper(\x27NETWORK_TIMEOUT\x27, \x27m\x27, \x7bd\x7d)".toList) =
      [FsEvent.readF
        ("throw new StandardErrorWrapper(\x27NETWORK_TIMEOUT\x27, \x27m\x27, \x7bd\x7d)".toList),
       FsEvent.backupF
        ("throw new StandardErrorWrapper(\x27NETWORK_TIMEOUT\x27, \x27m\x27, \x7bd\x7d)".toList),
       FsEvent.writeF (applyFix
        ("throw new StandardErrorWrapper(\x27NETWORK_TIMEOUT\x27, \x27m\x27, \x7bd\x7d)".toList))]
    ∧ applyFix
        ("throw new StandardErrorWrapper(\x27NETWORK_TIMEOUT\x27, \x27m\x27, \x7bd\x7d)".toList) =
      applyFix
        ("throw new StandardErrorWrapper(\x27NETWORK_TIMEOUT\x27, \x27m\x27, \x7bd\x7d)".toList) :=
  c7_backup_before_write (by decide)

/-- Claim C9 (amended): a backup event is emitted for every successfully
read candidate file, before any mutation, regardless of whether the file is
subsequently rewritten: the trace always begins with the read and the backup
of the original content. -/
theorem c9_backup_always (c : List Char) :
    ∃ t, fix_file_trace c = FsEvent.readF c :: FsEvent.backupF c :: t := by
  unfold fix_file_trace
  by_cases hch : applyFix c = c
  · exact ⟨[], by rw [if_pos hch]; rfl⟩
  · exact ⟨[FsEvent.writeF (applyFix c)], by rw [if_neg hch]; rfl⟩

/-- Claim C9 (counterexample to the backup-iff-rewritten claim): a candidate
file containing the marker only in a comment is classified skipped and never
written, yet its trace still contains a backup event — the backup is created
unconditionally before the transformation, not only for mutated files. -/
theorem c9_counterexample :
    occursB markerL ("// StandardErrorWrapper note\n".toList) = true
    ∧ fix_file_trace ("// StandardErrorWrapper note\n".toList) =
      [FsEvent.readF ("// StandardErrorWrapper note\n".toList),
       FsEvent.backupF ("// StandardErrorWrapper note\n".toList)]
    ∧ fix_file_outcome ("// StandardErrorWrapper note\n".toList) =
      (FixOutcome.skippedFix, "// StandardErrorWrapper note\n".toList) := by
  refine ⟨by decide, by decide, by decide⟩

/-- Claim C10 (amended): the composed per-file transformation (dependency
fix-up, then call-site rewrite) is idempotent on every content whose
once-transformed result contains no occurrence of the deprecated marker and
does not re-trigger the dependency fix-up (its base-dependency needle absent,
or the ErrorCodes needle present).  Without the first condition idempotence
fails, because a replacement block can combine with following text into a new
matchable call shape (see the counterexample). -/
theorem c10_idempotent_conditional {c : List Char}
    (h1 : occursB markerL (applyFix c) = false)
    (h2 : occursB stdNeedleL (applyFix c) = false ∨
      occursB ecNeedleL (applyFix c) = true) :
    applyFix (applyFix c) = applyFix c := by
  have hadd : add_errorcode_import (applyFix c) = applyFix c := by
    rcases h2 with h | h
    · exact add_import_id_of_nostd h
    · exact add_import_id_of_ec h
  have hrw : applyFix (applyFix c) =
      fix_standarderrorwrapper_calls (add_errorcode_import (applyFix c)) := rfl
  rw [hrw, hadd]
  exact fixCalls_id_of_no_marker h1

/-- Claim C10 (witness instance): the NETWORK_TIMEOUT example is transformed
to a marker-free block, and a second pass leaves it untouched. -/
theorem c10_idempotent_conditional_witness :
    applyFix (applyFix
      ("throw new StandardErrorWrapper(\x27NETWORK_TIMEOUT\x27, \x27timed out\x27, \x7b retry: true \x7d)".toList)) =
    applyFix
      ("throw new StandardErrorWrapper(\x27NETWORK_TIMEOUT\x27, \x27timed out\x27, \x7b retry: true \x7d)".toList) :=
  c10_idempotent_conditional (by decide) (Or.inl (by decide))

set_option maxRecDepth 400000 in
/-- Claim C10 (counterexample to unconditional idempotence): a message body
containing the text of a deprecated-call head, followed by suffix text
supplying the remaining argument shape, survives the first pass inside the
replacement block and forms a new match, so the second pass rewrites
again. -/
theorem c10_counterexample :
    applyFix (applyFix
      ("throw new StandardErrorWrapper(\x27C\x27, \x27throw new StandardErrorWrapper(\x27, \x7b x \x7d)\x27, \x27B\x27, \x7bz\x7d)".toList)) ≠
    applyFix
      ("throw new StandardErrorWrapper(\x27C\x27, \x27throw new StandardErrorWrapper(\x27, \x7b x \x7d)\x27, \x27B\x27, \x7bz\x7d)".toList) := by
  decide

theorem runStats_aux (jobs : List (Except (List Char) (List Char))) :
    ∀ st : RunStats,
      ((jobs.map processOne).foldl stepStats st).failedCount =
        st.failedCount + (jobs.filter isErrJob).length
      ∧ ((jobs.map processOne).foldl stepStats st).errors =
        st.errors ++ jobs.filterMap errMsgOf
      ∧ ((jobs.map processOne).foldl stepStats st).completeCount +
          ((jobs.map processOne).foldl stepStats st).incompleteCount +
          ((jobs.map processOne).foldl stepStats st).skippedCount +
          ((jobs.map processOne).foldl stepStats st).failedCount =
        st.completeCount + st.incompleteCount + st.skippedCount + st.failedCount +
          jobs.length := by
  induction jobs with
  | nil => intro st; simp
  | cons j rest ih =>
    intro st
    cases j with
    | error m =>
      have hp : processOne (Except.error m) = FixResult.failedR m := rfl
      have hJ : isErrJob (Except.error m) = true := rfl
      have hM : errMsgOf (Except.error m) = some m := rfl
      obtain ⟨ih1, ih2, ih3⟩ := ih (stepStats st (FixResult.failedR m))
      simp only [List.map_cons, List.foldl_cons, hp, List.filter_cons, hJ, if_true,
        List.length_cons, List.filterMap_cons, hM]
      refine ⟨?_, ?_, ?_⟩
      · rw [ih1]
        simp only [stepStats]
        omega
      · rw [ih2]
        simp [stepStats]
      · rw [ih3]
        simp only [stepStats]
        omega
    | ok content =>
      have hJ : isErrJob (Except.ok content) = false := rfl
      have hM : errMsgOf (Except.ok content) = none := rfl
      simp only [List.map_cons, List.foldl_cons, List.filter_cons, hJ,
        Bool.false_eq_true, if_false, List.length_cons, List.filterMap_cons, hM]
      cases ho : (fix_file_outcome content).1 with
      | completeFix =>
        have hp : processOne (Except.ok content) = FixResult.completeR := by
          have h0 : processOne (Except.ok content) =
              (match (fix_file_outcome content).1 with
               | FixOutcome.completeFix => FixResult.completeR
               | FixOutcome.incompleteFix => FixResult.incompleteR
               | FixOutcome.skippedFix => FixResult.skippedR) := rfl
          rw [ho] at h0
          exact h0
        obtain ⟨ih1, ih2, ih3⟩ := ih (stepStats st FixResult.completeR)
        rw [hp]
        refine ⟨?_, ?_, ?_⟩
        · rw [ih1]; simp [stepStats]
        · rw [ih2]; simp [stepStats]
        · rw [ih3]; simp only [stepStats]; omega
      | incompleteFix =>
        have hp : processOne (Except.ok content) = FixResult.incompleteR := by
          have h0 : processOne (Except.ok content) =
              (match (fix_file_outcome content).1 with
               | FixOutcome.completeFix => FixResult.completeR
               | FixOutcome.incompleteFix => FixResult.incompleteR
               | FixOutcome.skippedFix => FixResult.skippedR) := rfl
          rw [ho] at h0
          exact h0
        obtain ⟨ih1, ih2, ih3⟩ := ih (stepStats st FixResult.incompleteR)
        rw [hp]
        refine ⟨?_, ?_, ?_⟩
        · rw [ih1]; simp [stepStats]
        · rw [ih2]; simp [stepStats]
        · rw [ih3]; simp only [stepStats]; omega
      | skippedFix =>
        have hp : processOne (Except.ok content) = FixResult.skippedR := by
          have h0 : processOne (Except.ok content) =
              (match (fix_file_outcome content).1 with
               | FixOutcome.completeFix => FixResult.completeR
               | FixOutcome.incompleteFix => FixResult.incompleteR
               | FixOutcome.skippedFix => FixResult.skippedR) := rfl
          rw [ho] at h0
          exact h0
        obtain ⟨ih1, ih2, ih3⟩ := ih (stepStats st FixResult.skippedR)
        rw [hp]
        refine ⟨?_, ?_, ?_⟩
        · rw [ih1]; simp [stepStats]
        · rw [ih2]; simp [stepStats]
        · rw [ih3]; simp only [stepStats]; omega

/-- Claim C8: per-file I/O errors are caught at the file-processing boundary
and converted into failed results carrying the error message, and the run is
not aborted: the main loop tallies every job in the sequence, its failure
count equals the number of error jobs, and its error list collects exactly
their messages in order. -/
theorem c8_errors_recorded (jobs : List (Except (List Char) (List Char))) :
    (runStats jobs).failedCount = (jobs.filter isErrJob).length
    ∧ (runStats jobs).errors = jobs.filterMap errMsgOf
    ∧ (runStats jobs).completeCount + (runStats jobs).incompleteCount +
        (runStats jobs).skippedCount + (runStats jobs).failedCount = jobs.length := by
  have h := runStats_aux jobs initStats
  simpa [runStats, initStats] using h

end SEW
